import Mathlib

/-
Verification of the compile-time variadic-pack analysis utilities of
`meta_types.hpp` (namespace `iso::meta_type`, class `var_pack`).

Embedding choices:
- A C++ type is modelled as an atom of an arbitrary type `α` with decidable
  equality; `is_same<T, U>` becomes equality of atoms.
- A constant value (`const auto arg`) is modelled as a pair `CVal`: its
  declared type (an atom of `α`) together with its payload (of `β`).
  C++ overload resolution on the declared types of two arguments becomes
  comparison of the `ty` fields; the payload is carried so that value
  extraction can be stated.
- A variadic pack becomes a `List`.
Every definition mirrors one member of `var_pack` and is named after it.
-/

namespace MetaType

variable {α : Type} {β : Type}

/-- Models a C++ constant argument `const auto arg`: the declared type of the
argument (`ty`, an atom of the type universe `α`) plus its value (`val`). -/
structure CVal (α : Type) (β : Type) where
  ty : α
  val : β
  deriving DecidableEq, Repr

namespace var_pack

/-- Embeds `var_pack::is_types_unique::duplicate_type<First, Rest...>`:
`(!is_same_v<First, Rest> && ...) && duplicate_type<Rest...>::value`, with the
single-type specialization returning `true`. The C++ template is only ever
instantiated on a nonempty pack; the `[]` case closes the recursion exactly
where the singleton specialization stops it. -/
def duplicate_type [DecidableEq α] : List α → Bool
  | [] => true
  | first :: rest => rest.all (fun u => !decide (first = u)) && duplicate_type rest

/-- Embeds `var_pack::is_types_unique_v<Types...>`: `true` for the empty pack
(the `if constexpr (sizeof...(Types))` guard), otherwise
`duplicate_type<Types...>::value`. -/
def is_types_unique_v [DecidableEq α] (tys : List α) : Bool :=
  if tys.isEmpty then true else duplicate_type tys

/-- Embeds `var_pack::duplicate::duplicate_types_val(first, rest...)`:
`(!is_same_v(first, rest) && ...) && duplicate_types_val(rest...)`.
The helper `duplicate::is_same_v` dispatches on the declared types of its two
arguments only — `is_same_v(const T, const T)` is `true` whatever the two
values are — so the fold compares `ty` fields and ignores `val`. -/
def duplicate_types_val [DecidableEq α] : List (CVal α β) → Bool
  | [] => true
  | first :: rest =>
      rest.all (fun w => !decide (first.ty = w.ty)) && duplicate_types_val rest

/-- Embeds `var_pack::is_types_val_unique_v(args...)`: the zero- and
one-argument overloads return `true`; with two or more arguments it calls
`duplicate::duplicate_types_val`. -/
def is_types_val_unique_v [DecidableEq α] : List (CVal α β) → Bool
  | [] => true
  | [_] => true
  | first :: second :: rest => duplicate_types_val (first :: second :: rest)

/-- Embeds `var_pack::is_type_list<...>::is_parameter_inside<T>`:
`is_same_v<T, TypeFirst> ? true : ...` recursing into the rest of the allowed
list, the single-type specialization returning `is_same_v<T, TypeFirst>`.
The `[]` case closes the recursion where that specialization stops it (the
C++ template requires at least one allowed type). -/
def is_parameter_inside [DecidableEq α] : List α → α → Bool
  | [], _ => false
  | a :: rest, t => if t = a then true else is_parameter_inside rest t

/-- Embeds `var_pack::is_type_list<...>::contains<ParamFirst, ParamRest...>`:
`is_parameter_inside<ParamFirst>::value ? contains<ParamRest...>::value :
false`, with the single-parameter specialization returning
`is_parameter_inside<ParamFirst>::value`. -/
def contains [DecidableEq α] (A : List α) : List α → Bool
  | [] => true
  | p :: rest => if is_parameter_inside A p then contains A rest else false

/-- Embeds `var_pack::is_type_list<A...>::contains_v<Params...>`: `true` for
the empty query pack (the `if constexpr (sizeof...(Params))` guard),
otherwise `contains<Params...>::value`. -/
def contains_v [DecidableEq α] (A Q : List α) : Bool :=
  if Q.isEmpty then true else contains A Q

/-- Embeds `var_pack::contains_list<...>::is_parameter_inside(value)`: the
non-template overload accepts exactly an argument of declared type
`TypeFirst` and returns `true`; the template overload forwards the value to
the rest of the list, the single-type specialization returning `false` for a
non-matching declared type. -/
def contains_list.is_parameter_inside [DecidableEq α] :
    List α → CVal α β → Bool
  | [], _ => false
  | a :: rest, v =>
      if v.ty = a then true else contains_list.is_parameter_inside rest v

/-- Embeds `var_pack::contains_list<...>::contains(first, rest...)`:
`is_parameter_inside(first) ? contains(rest...) : false`, the zero-argument
overload returning `true`. -/
def contains_list.contains [DecidableEq α] (A : List α) :
    List (CVal α β) → Bool
  | [] => true
  | v :: rest =>
      if contains_list.is_parameter_inside A v then contains_list.contains A rest
      else false

/-- Embeds `var_pack::is_type_val_list<A...>::contains_v(args...)`: the
zero-argument overload returns `true`; otherwise it calls
`contains_list<A...>::contains(first, rest...)`. -/
def is_type_val_list.contains_v [DecidableEq α] (A : List α) :
    List (CVal α β) → Bool
  | [] => true
  | v :: rest => contains_list.contains A (v :: rest)

/-- Embeds `var_pack::type<Type, defaultValue>::get(args...)`: overload
resolution picks the exact-`Type` overloads (return the first argument) when
the first argument's declared type is `Type`, the generic overloads (drop the
first argument and recurse) otherwise, and the zero-argument overload and the
single non-`Type`-argument overload return `defaultValue`. -/
def type.get [DecidableEq α] (T : α) (defaultValue : β) :
    List (CVal α β) → β
  | [] => defaultValue
  | v :: rest => if v.ty = T then v.val else type.get T defaultValue rest

/-- Written from the words of the spec, for comparison with the code: two
constant values are equal only when both the declared types are identical and
the values compare equal. -/
def spec.cval_eq [DecidableEq α] [DecidableEq β] (v w : CVal α β) : Prop :=
  v.ty = w.ty ∧ v.val = w.val

/-- Written from the words of the spec, for comparison with the code: a pack
of constant values is unique when no two distinct positions hold equal
elements, under `spec.cval_eq`. -/
def spec.cval_unique [DecidableEq α] [DecidableEq β] (P : List (CVal α β)) : Prop :=
  P.Pairwise (fun v w => ¬ spec.cval_eq v w)

end var_pack

namespace var_pack

theorem is_parameter_inside_iff [DecidableEq α] (A : List α) (t : α) :
    is_parameter_inside A t = true ↔ t ∈ A := by
  induction A with
  | nil => simp [is_parameter_inside]
  | cons a rest ih =>
      by_cases h : t = a <;> simp [is_parameter_inside, h, ih]

theorem contains_iff [DecidableEq α] (A Q : List α) :
    contains A Q = true ↔ ∀ q ∈ Q, q ∈ A := by
  induction Q with
  | nil => simp [contains]
  | cons p rest ih =>
      by_cases h : is_parameter_inside A p = true
      · rw [is_parameter_inside_iff] at h
        simp [contains, is_parameter_inside_iff, h, ih]
      · rw [is_parameter_inside_iff] at h
        simp [contains, is_parameter_inside_iff, h, ih]

theorem contains_v_iff [DecidableEq α] (A Q : List α) :
    contains_v A Q = true ↔ ∀ q ∈ Q, q ∈ A := by
  cases Q with
  | nil => simp [contains_v]
  | cons q rest => simp [contains_v, contains_iff]

theorem duplicate_type_iff [DecidableEq α] (l : List α) :
    duplicate_type l = true ↔ l.Pairwise (fun a b => a ≠ b) := by
  induction l with
  | nil => simp [duplicate_type]
  | cons a rest ih => simp [duplicate_type, ih, List.pairwise_cons]

theorem is_types_unique_v_iff [DecidableEq α] (l : List α) :
    is_types_unique_v l = true ↔ l.Pairwise (fun a b => a ≠ b) := by
  cases l with
  | nil => simp [is_types_unique_v]
  | cons a rest => simp [is_types_unique_v, duplicate_type_iff]

theorem all_ty_eq_map [DecidableEq α] (t : α) (l : List (CVal α β)) :
    (l.all fun w => !decide (t = w.ty)) = ((l.map CVal.ty).all fun u => !decide (t = u)) := by
  induction l with
  | nil => rfl
  | cons w rest ih => simp [List.all_cons, ih]

theorem duplicate_types_val_eq_map [DecidableEq α] (Q : List (CVal α β)) :
    duplicate_types_val Q = duplicate_type (Q.map CVal.ty) := by
  induction Q with
  | nil => rfl
  | cons v rest ih => simp [duplicate_types_val, duplicate_type, ih, all_ty_eq_map]

theorem is_types_val_unique_v_eq_map [DecidableEq α] (Q : List (CVal α β)) :
    is_types_val_unique_v Q = is_types_unique_v (Q.map CVal.ty) := by
  match Q with
  | [] => rfl
  | [v] => simp [is_types_val_unique_v, is_types_unique_v, duplicate_type]
  | v :: w :: rest =>
      rw [show is_types_val_unique_v (v :: w :: rest)
            = duplicate_types_val (v :: w :: rest) from rfl,
          duplicate_types_val_eq_map]
      simp [is_types_unique_v]

theorem contains_list_is_parameter_inside_eq [DecidableEq α]
    (A : List α) (v : CVal α β) :
    contains_list.is_parameter_inside A v = is_parameter_inside A v.ty := by
  induction A with
  | nil => rfl
  | cons a rest ih =>
      simp [contains_list.is_parameter_inside, is_parameter_inside, ih]

theorem contains_list_contains_iff [DecidableEq α]
    (A : List α) (Q : List (CVal α β)) :
    contains_list.contains A Q = true ↔ ∀ v ∈ Q, v.ty ∈ A := by
  induction Q with
  | nil => simp [contains_list.contains]
  | cons v rest ih =>
      by_cases h : v.ty ∈ A
      · have h2 : contains_list.is_parameter_inside A v = true := by
          rw [contains_list_is_parameter_inside_eq, is_parameter_inside_iff]
          exact h
        simp [contains_list.contains, h2, h, ih]
      · have h2 : contains_list.is_parameter_inside A v = false := by
          rw [contains_list_is_parameter_inside_eq]
          rw [Bool.eq_false_iff]
          intro hc
          exact h ((is_parameter_inside_iff A v.ty).mp hc)
        simp [contains_list.contains, h2, h]

theorem is_type_val_list_contains_v_iff [DecidableEq α]
    (A : List α) (Q : List (CVal α β)) :
    is_type_val_list.contains_v A Q = true ↔ ∀ v ∈ Q, v.ty ∈ A := by
  cases Q with
  | nil => simp [is_type_val_list.contains_v]
  | cons v rest =>
      rw [show is_type_val_list.contains_v A (v :: rest)
            = contains_list.contains A (v :: rest) from rfl]
      exact contains_list_contains_iff A (v :: rest)

end var_pack

instance [DecidableEq α] [DecidableEq β] (v w : CVal α β) :
    Decidable (var_pack.spec.cval_eq v w) :=
  inferInstanceAs (Decidable (v.ty = w.ty ∧ v.val = w.val))

instance [DecidableEq α] [DecidableEq β] (P : List (CVal α β)) :
    Decidable (var_pack.spec.cval_unique P) :=
  inferInstanceAs (Decidable (P.Pairwise (fun v w => ¬ var_pack.spec.cval_eq v w)))

/-- Claim C1, as stated, is false on the code: on the pack holding two values
of declared type `0` with the different payloads `5` and `7`,
`is_types_val_unique_v` returns `false`, while under the claimed equality
rule (identical declared types AND equal values) no two positions hold equal
elements, so the claimed characterisation demands `true`. -/
theorem is_types_val_unique_v_value_sensitive_cex :
    ¬ (var_pack.is_types_val_unique_v ([⟨0, 5⟩, ⟨0, 7⟩] : List (CVal Nat Nat)) = true
        ↔ var_pack.spec.cval_unique ([⟨0, 5⟩, ⟨0, 7⟩] : List (CVal Nat Nat))) := by
  decide

/-- Claim C1 (amended): for every pack `P` of constant values,
`is_types_val_unique_v P` returns `true` iff no two distinct positions in `P`
hold values with identical declared types; the payloads are ignored, so a
pack holding two values of the same declared type but different values is
reported non-unique. -/
theorem is_types_val_unique_v_iff_pairwise_ty_ne [DecidableEq α]
    (P : List (CVal α β)) :
    var_pack.is_types_val_unique_v P = true
      ↔ P.Pairwise (fun v w => v.ty ≠ w.ty) := by
  rw [var_pack.is_types_val_unique_v_eq_map, var_pack.is_types_unique_v_iff,
    List.pairwise_map]

/-- Claim C2: for every allowed-type list `A` with at least one type and
every query type pack `Q`, `is_type_list<A...>::contains_v<Q...>` is `true`
iff `Q` is empty or every type in `Q` is type-identical to at least one type
in `A` (types are atoms, so membership is exact identity). -/
theorem contains_v_iff_empty_or_mem [DecidableEq α] (A Q : List α)
    (_hA : A ≠ []) :
    var_pack.contains_v A Q = true ↔ (Q = [] ∨ ∀ q ∈ Q, q ∈ A) := by
  rw [var_pack.contains_v_iff]
  constructor
  · intro h
    exact Or.inr h
  · rintro (rfl | h)
    · intro q hq
      cases hq
    · exact h

theorem contains_v_iff_empty_or_mem_witness :
    (([0, 1] : List Nat) ≠ []) ∧
      (var_pack.contains_v ([0, 1] : List Nat) [1, 0] = true
        ↔ (([1, 0] : List Nat) = [] ∨ ∀ q ∈ ([1, 0] : List Nat), q ∈ ([0, 1] : List Nat))) :=
  ⟨by decide, contains_v_iff_empty_or_mem [0, 1] [1, 0] (by decide)⟩

/-- Claim C3: for every target type `T`, default `d`, and value pack `Q`
whose first element of declared type `T` sits at position `i` (no element
before position `i` has declared type `T`), `type<T, d>::get(Q)` returns the
value at position `i`, whatever the elements at the other positions are. -/
theorem type_get_first_match [DecidableEq α] (T : α) (d : β)
    (Q : List (CVal α β)) (i : Nat) (hi : i < Q.length)
    (hty : (Q.get ⟨i, hi⟩).ty = T) (hbefore : ∀ v ∈ Q.take i, v.ty ≠ T) :
    var_pack.type.get T d Q = (Q.get ⟨i, hi⟩).val := by
  induction Q generalizing i with
  | nil => exact absurd hi (Nat.not_lt_zero i)
  | cons v rest ih =>
      cases i with
      | zero =>
          simp only [List.get] at hty ⊢
          simp [var_pack.type.get, hty]
      | succ n =>
          have hv : v.ty ≠ T := hbefore v (by simp)
          have hrest : ∀ w ∈ rest.take n, w.ty ≠ T := by
            intro w hw
            exact hbefore w (by simp [List.mem_cons_of_mem, hw])
          simp only [List.get] at hty ⊢
          rw [show var_pack.type.get T d (v :: rest)
                = if v.ty = T then v.val else var_pack.type.get T d rest from rfl,
            if_neg hv]
          exact ih n (Nat.lt_of_succ_lt_succ hi) hty hrest

theorem type_get_first_match_witness :
    ((([⟨1, 10⟩, ⟨0, 42⟩] : List (CVal Nat Nat)).get ⟨1, by decide⟩).ty = 0) ∧
      var_pack.type.get 0 7 ([⟨1, 10⟩, ⟨0, 42⟩] : List (CVal Nat Nat))
        = (([⟨1, 10⟩, ⟨0, 42⟩] : List (CVal Nat Nat)).get ⟨1, by decide⟩).val :=
  ⟨by decide, type_get_first_match 0 7 [⟨1, 10⟩, ⟨0, 42⟩] 1 (by decide)
    (by decide) (by decide)⟩

/-- Claim C4: for every target type `T` and default `d`,
`type<T, d>::get(Q)` returns the preconfigured default `d` whenever the pack
`Q` contains no element of declared type `T`, including when `Q` is empty;
the extractor is total and always produces a value. -/
theorem type_get_default_of_no_match [DecidableEq α] (T : α) (d : β)
    (Q : List (CVal α β)) (h : ∀ v ∈ Q, v.ty ≠ T) :
    var_pack.type.get T d Q = d := by
  induction Q with
  | nil => rfl
  | cons v rest ih =>
      have hv : v.ty ≠ T := h v (List.mem_cons_self v rest)
      have hrest : ∀ w ∈ rest, w.ty ≠ T := fun w hw => h w (List.mem_cons_of_mem v hw)
      simp [var_pack.type.get, hv, ih hrest]

theorem type_get_default_of_no_match_witness :
    (∀ v ∈ ([⟨1, 10⟩, ⟨2, 20⟩] : List (CVal Nat Nat)), v.ty ≠ 0) ∧
      var_pack.type.get 0 7 ([⟨1, 10⟩, ⟨2, 20⟩] : List (CVal Nat Nat)) = 7 :=
  ⟨by decide, type_get_default_of_no_match 0 7 [⟨1, 10⟩, ⟨2, 20⟩] (by decide)⟩

/-- Claim C5: for every allowed-type list `A` with at least one type and
every pack of constant values `Q`, `is_type_val_list<A...>::contains_v(Q)`
is `true` iff every value in `Q` has a declared type identical to some type
in `A`; the payloads do not appear in the criterion, and the empty pack
satisfies it vacuously. -/
theorem is_type_val_list_contains_v_iff_ty_mem [DecidableEq α] (A : List α)
    (Q : List (CVal α β)) (_hA : A ≠ []) :
    var_pack.is_type_val_list.contains_v A Q = true ↔ ∀ v ∈ Q, v.ty ∈ A :=
  var_pack.is_type_val_list_contains_v_iff A Q

theorem is_type_val_list_contains_v_iff_ty_mem_witness :
    (([0, 1] : List Nat) ≠ []) ∧
      (var_pack.is_type_val_list.contains_v ([0, 1] : List Nat)
          ([⟨1, 5⟩, ⟨0, 9⟩] : List (CVal Nat Nat)) = true
        ↔ ∀ v ∈ ([⟨1, 5⟩, ⟨0, 9⟩] : List (CVal Nat Nat)), v.ty ∈ ([0, 1] : List Nat)) :=
  ⟨by decide, is_type_val_list_contains_v_iff_ty_mem [0, 1] [⟨1, 5⟩, ⟨0, 9⟩] (by decide)⟩

/-- Claim C6: membership checking is permutation-invariant in the query
pack: permuting `Q` never changes `is_type_list<A...>::contains_v<Q...>`. -/
theorem contains_v_perm_query_invariant [DecidableEq α] (A Q R : List α)
    (h : Q.Perm R) : var_pack.contains_v A Q = var_pack.contains_v A R := by
  rw [Bool.eq_iff_iff, var_pack.contains_v_iff, var_pack.contains_v_iff]
  constructor
  · intro hq q hqR
    exact hq q (h.mem_iff.mpr hqR)
  · intro hr q hqQ
    exact hr q (h.mem_iff.mp hqQ)

theorem contains_v_perm_query_invariant_witness :
    (([0, 1] : List Nat).Perm [1, 0]) ∧
      var_pack.contains_v ([0] : List Nat) [0, 1]
        = var_pack.contains_v ([0] : List Nat) [1, 0] :=
  ⟨by decide, contains_v_perm_query_invariant [0] [0, 1] [1, 0] (by decide)⟩

/-- Claim C7: membership checking is permutation-invariant in the allowed
list: permuting `A` never changes `is_type_list<A...>::contains_v<Q...>`. -/
theorem contains_v_perm_allowed_invariant [DecidableEq α] (A B Q : List α)
    (h : A.Perm B) : var_pack.contains_v A Q = var_pack.contains_v B Q := by
  rw [Bool.eq_iff_iff, var_pack.contains_v_iff, var_pack.contains_v_iff]
  constructor
  · intro ha q hq
    exact h.mem_iff.mp (ha q hq)
  · intro hb q hq
    exact h.mem_iff.mpr (hb q hq)

theorem contains_v_perm_allowed_invariant_witness :
    (([0, 1] : List Nat).Perm [1, 0]) ∧
      var_pack.contains_v ([0, 1] : List Nat) [1]
        = var_pack.contains_v ([1, 0] : List Nat) [1] :=
  ⟨by decide, contains_v_perm_allowed_invariant [0, 1] [1, 0] [1] (by decide)⟩

/-- Claim C8: inserting a duplicate of one of the elements of an
otherwise-unique pack, at any position (start, middle or end, written as the
split `l1 ++ x :: l2` of the result), makes `is_types_unique_v` return
`false`. -/
theorem is_types_unique_v_insert_duplicate [DecidableEq α] (l1 l2 : List α)
    (x : α) (_hu : var_pack.is_types_unique_v (l1 ++ l2) = true)
    (hx : x ∈ l1 ++ l2) :
    var_pack.is_types_unique_v (l1 ++ x :: l2) = false := by
  rw [Bool.eq_false_iff]
  intro hc
  rw [var_pack.is_types_unique_v_iff] at hc
  have hnd : (l1 ++ x :: l2).Nodup := hc
  have hle : List.count x (l1 ++ x :: l2) ≤ 1 :=
    List.nodup_iff_count_le_one.mp hnd x
  have hpos : 0 < List.count x (l1 ++ l2) := List.count_pos_iff.mpr hx
  have hsplit : List.count x (l1 ++ x :: l2)
      = List.count x (l1 ++ l2) + 1 := by
    rw [List.count_append, List.count_append, List.count_cons_self]
    omega
  omega

theorem is_types_unique_v_insert_duplicate_witness :
    (var_pack.is_types_unique_v (([0] : List Nat) ++ [1]) = true) ∧
      ((0 : Nat) ∈ ([0] : List Nat) ++ [1]) ∧
      var_pack.is_types_unique_v (([0] : List Nat) ++ 0 :: [1]) = false :=
  ⟨by decide, by decide,
    is_types_unique_v_insert_duplicate [0] [1] 0 (by decide) (by decide)⟩

/-- Claim C9: the empty pack and every single-element pack are reported
unique, by both the type-level check `is_types_unique_v` and the value-level
check `is_types_val_unique_v`. -/
theorem empty_and_singleton_always_unique [DecidableEq α] (t : α)
    (v : CVal α β) :
    var_pack.is_types_unique_v ([] : List α) = true
      ∧ var_pack.is_types_unique_v [t] = true
      ∧ var_pack.is_types_val_unique_v ([] : List (CVal α β)) = true
      ∧ var_pack.is_types_val_unique_v [v] = true :=
  ⟨rfl, by simp [var_pack.is_types_unique_v, var_pack.duplicate_type], rfl, rfl⟩

/-- Claim C10: for every pack of constant values `Q`, the value-level
uniqueness check `is_types_val_unique_v(Q)` returns exactly the boolean that
the type-level check `is_types_unique_v` returns on the sequence of the
arguments' declared types. -/
theorem is_types_val_unique_v_refines_type_level [DecidableEq α]
    (Q : List (CVal α β)) :
    var_pack.is_types_val_unique_v Q
      = var_pack.is_types_unique_v (Q.map CVal.ty) :=
  var_pack.is_types_val_unique_v_eq_map Q

end MetaType
